import Mathlib

/-!
Shallow embedding of `quotes.go` (package `quotes`): a persistence layer for
quote records backed by a single SQLite table

  CREATE TABLE quotes (id INTEGER PRIMARY KEY, date INTEGER NOT NULL,
                       author TEXT NOT NULL, quote TEXT NOT NULL)

The store (`QuoteDB`) wraps the table contents and a cached in-memory row
count `nQuotes`.  Each Go operation maps to exactly one parameterized SQL
statement; we model the table as a list of rows in insertion (rowid) order.

The Go code calls the generic `database/sql` interface, whose `Exec`,
`Result.LastInsertId` and `Result.RowsAffected` calls are fallible; the code
has explicit branches for each of those failures.  We model each such
possible failure as a Boolean oracle argument (`execErr`, `lastIdErr`,
`rowsErr`): `false` means the driver call succeeded, `true` means it
reported an error.  An error-free execution fixes every oracle to `false`.
Read-only queries are modelled as pure functions of the state; their only
state-determined failure is `sql.ErrNoRows` (here `SqlError.noRows`),
returned by `QueryRow(...).Scan` when no row matches.

SQLite's NOT NULL constraint rejects only NULL bindings.  Go `string` and
`int64` parameters always bind as non-NULL TEXT / INTEGER values, which we
make explicit with `SqlValue`: the insert statement checks its bindings for
NULL, and the store can never produce one.
-/

namespace Quotes

/-- Errors surfaced by the modelled `database/sql` layer: a driver I/O
failure, `sql.ErrNoRows` from `QueryRow(...).Scan`, and a NOT NULL
constraint violation from the schema. -/
inductive SqlError where
  | ioError
  | noRows
  | notNullViolation
deriving DecidableEq

/-- A value bound to a `?` placeholder.  Go `string` binds as `text`,
Go `int64` as `int`; only a NULL binding (never produced by this store's
API) violates the schema's NOT NULL constraints. -/
inductive SqlValue where
  | null
  | int (i : Int)
  | text (s : String)
deriving DecidableEq

/-- One row of the `quotes` table (also the shape of the Go `Quote` struct
serialized by `GetAll`; `date` holds unix seconds). -/
structure Row where
  id : Int
  date : Int
  author : String
  quote : String
deriving DecidableEq

/-- The `quotes` table, as its rows in rowid (insertion) order. -/
abbrev Table := List Row

/-- Largest `id` present (0 on an empty table); SQLite assigns the next
rowid for `INTEGER PRIMARY KEY` as one more than this. -/
def maxId (t : Table) : Int :=
  t.foldr (fun r m => max r.id m) 0

/-- `INSERT INTO quotes (date, author, quote) VALUES(?, ?, ?)`.
The schema's NOT NULL constraints reject a NULL binding; otherwise the row
is appended with the freshly assigned rowid, which is also the statement's
`LastInsertId`. -/
def execInsert (t : Table) (dateV authorV quoteV : SqlValue) :
    Except SqlError (Table × Int) :=
  match dateV, authorV, quoteV with
  | .int d, .text a, .text q =>
      let newId := maxId t + 1
      .ok (t ++ [⟨newId, d, a, q⟩], newId)
  | _, _, _ => .error .notNullViolation

/-- The Go `QuoteDB` struct: the backing table plus the cached in-memory
count `nQuotes` (the `sync.RWMutex` serializes access; the model is the
serialized history, so the lock itself has no residue here). -/
structure QuoteDB where
  table : Table
  nQuotes : Int
deriving DecidableEq

/-- `NQuotes` returns the cached count under a read lock; it never touches
storage. -/
def NQuotes (db : QuoteDB) : Int :=
  db.nQuotes

/-- `AddQuote(author, quote)`: executes the insert with the current
timestamp; on insert success increments the cached count, and if
`LastInsertId` fails returns id 0 together with that error (the count is
incremented regardless).  Returns `((id, err), newState)`. -/
def AddQuote (db : QuoteDB) (now : Int) (author quote : String)
    (execErr lastIdErr : Bool) : (Int × Option SqlError) × QuoteDB :=
  if execErr then ((0, some .ioError), db)
  else
    match execInsert db.table (.int now) (.text author) (.text quote) with
    | .error e => ((0, some e), db)
    | .ok (t, newId) =>
        let idErr : Int × Option SqlError :=
          if lastIdErr then (0, some .ioError) else (newId, none)
        (idErr, ⟨t, db.nQuotes + 1⟩)

/-- `DelQuote(id)`: `DELETE FROM quotes WHERE id = ?`, then inspects
`RowsAffected`; decrements the cached count and returns `true` exactly when
the reported count is 1.  If `RowsAffected` itself fails the deletion has
already happened but the function returns `(false, err)` without touching
the cached count.  Returns `((deleted, err), newState)`. -/
def DelQuote (db : QuoteDB) (id : Int) (execErr rowsErr : Bool) :
    (Bool × Option SqlError) × QuoteDB :=
  if execErr then ((false, some .ioError), db)
  else
    let t := db.table.filter (fun r => r.id ≠ id)
    let affected := db.table.length - t.length
    if rowsErr then ((false, some .ioError), ⟨t, db.nQuotes⟩)
    else if affected = 1 then ((true, none), ⟨t, db.nQuotes - 1⟩)
    else ((false, none), ⟨t, db.nQuotes⟩)

/-- `EditQuote(id, quote)`: `UPDATE quotes SET quote = ? WHERE id = ?`,
then reports whether `RowsAffected` is 1.  The cached count is never
touched.  Returns `((updated, err), newState)`. -/
def EditQuote (db : QuoteDB) (id : Int) (quote : String)
    (execErr rowsErr : Bool) : (Bool × Option SqlError) × QuoteDB :=
  if execErr then ((false, some .ioError), db)
  else
    let t := db.table.map
      (fun r => if r.id = id then { r with quote := quote } else r)
    let affected := (db.table.filter (fun r => r.id = id)).length
    if rowsErr then ((false, some .ioError), ⟨t, db.nQuotes⟩)
    else ((decide (affected = 1), none), ⟨t, db.nQuotes⟩)

/-- `GetQuote(id)`: `SELECT quote FROM quotes WHERE id = ?` via
`QueryRow(...).Scan`, which yields `sql.ErrNoRows` when no row matches. -/
def GetQuote (db : QuoteDB) (id : Int) : Except SqlError String :=
  match db.table.filter (fun r => r.id = id) with
  | [] => .error .noRows
  | r :: _ => .ok r.quote

/-- `GetDetails(id)`: `SELECT date, author FROM quotes WHERE id = ?` via
`QueryRow(...).Scan`. -/
def GetDetails (db : QuoteDB) (id : Int) : Except SqlError (Int × String) :=
  match db.table.filter (fun r => r.id = id) with
  | [] => .error .noRows
  | r :: _ => .ok (r.date, r.author)

/-- `RandomQuote()`: `SELECT id, quote FROM quotes ORDER BY RANDOM()
LIMIT 1`.  The engine's random choice is modelled by the nondeterminism
parameter `k`: the row at position `k % length` is picked; an empty table
yields `sql.ErrNoRows`. -/
def RandomQuote (db : QuoteDB) (k : Nat) : Except SqlError (Int × String) :=
  match db.table[k % db.table.length]? with
  | none => .error .noRows
  | some r => .ok (r.id, r.quote)

/-- Row comparison used by `ORDER BY id desc`. -/
def rowGe (a b : Row) : Prop :=
  b.id ≤ a.id

instance : DecidableRel rowGe := fun a b => inferInstanceAs (Decidable (b.id ≤ a.id))

instance : IsTotal Row rowGe :=
  ⟨fun a b => (le_total b.id a.id).imp id id⟩

instance : IsTrans Row rowGe :=
  ⟨fun _ _ _ hab hbc => le_trans hbc hab⟩

/-- `GetAll()`: `SELECT id, date, author, quote FROM quotes order by id
desc`, eagerly materialized into a list.  In this model the only possible
failures are driver I/O errors, so the success value is always produced. -/
def GetAll (db : QuoteDB) : Except SqlError (List Row) :=
  .ok (db.table.insertionSort rowGe)

/-- Outcome of `OpenDB`: the store (or none), the returned error, and
whether a database handle was obtained and whether it was closed again. -/
structure OpenOutcome where
  store : Option QuoteDB
  err : Option SqlError
  handleOpened : Bool
  handleClosed : Bool
deriving DecidableEq

/-- `OpenDB(filename)`: opens the backing file (whose current table
contents are `fileTable`), runs the two idempotent schema statements
(`CREATE TABLE IF NOT EXISTS`, `CREATE INDEX IF NOT EXISTS`), then loads
the initial count with `SELECT COUNT(*) FROM quotes`.  On a schema or
count failure the deferred `Close` releases the handle and no store is
returned.  The oracles say whether `sql.Open`, each schema `Exec`, and the
count query fail. -/
def OpenDB (fileTable : Table) (openErr createErr indexErr countErr : Bool) :
    OpenOutcome :=
  if openErr then ⟨none, some .ioError, false, false⟩
  else if createErr then ⟨none, some .ioError, true, true⟩
  else if indexErr then ⟨none, some .ioError, true, true⟩
  else if countErr then ⟨none, some .ioError, true, true⟩
  else ⟨some ⟨fileTable, (fileTable.length : Int)⟩, none, true, false⟩

/-- One store operation together with the oracle outcomes of its driver
calls; the read-only operations are included to make "no other operation
changes the count" expressible. -/
inductive Op where
  | add (now : Int) (author quote : String) (execErr lastIdErr : Bool)
  | del (id : Int) (execErr rowsErr : Bool)
  | edit (id : Int) (newQuote : String) (execErr rowsErr : Bool)
  | getQuoteOp (id : Int)
  | getDetailsOp (id : Int)
  | getAllOp
  | randomQuoteOp (k : Nat)
  | nQuotesOp
deriving DecidableEq

/-- State transformer of one operation (the read-only operations leave the
store untouched: they only query). -/
def runOp (db : QuoteDB) : Op → QuoteDB
  | .add now a q e l => (AddQuote db now a q e l).2
  | .del id e r => (DelQuote db id e r).2
  | .edit id s e r => (EditQuote db id s e r).2
  | .getQuoteOp _ => db
  | .getDetailsOp _ => db
  | .getAllOp => db
  | .randomQuoteOp _ => db
  | .nQuotesOp => db

/-- The store's consistency invariant: table ids are pairwise distinct
(enforced by `INTEGER PRIMARY KEY`) and the cached count equals
`SELECT COUNT(*) FROM quotes`. -/
def Inv (db : QuoteDB) : Prop :=
  (db.table.map Row.id).Nodup ∧ db.nQuotes = (db.table.length : Int)

instance (db : QuoteDB) : Decidable (Inv db) :=
  inferInstanceAs (Decidable (_ ∧ _))

/-- An operation whose driver accounting cannot silently lose a deletion:
for `del`, either the delete statement itself failed (nothing happened) or
`RowsAffected` reported faithfully.  The bundled SQLite driver's
`RowsAffected` never returns an error, so every operation it produces is
safe. -/
def safeOp : Op → Prop
  | .del _ execErr rowsErr => execErr = true ∨ rowsErr = false
  | _ => True

instance (op : Op) : Decidable (safeOp op) := by
  cases op <;> simp only [safeOp] <;> infer_instance

/-! ### Helper lemmas about the table model -/

theorem mem_id_le_maxId {t : Table} {r : Row} (h : r ∈ t) : r.id ≤ maxId t := by
  induction t with
  | nil => cases h
  | cons s ts ih =>
      rcases List.mem_cons.mp h with h | h
      · subst h; exact le_max_left _ _
      · exact le_trans (ih h) (le_max_right _ _)

theorem maxId_succ_not_mem {t : Table} : maxId t + 1 ∉ t.map Row.id := by
  intro h
  rcases List.mem_map.mp h with ⟨r, hr, hid⟩
  have := mem_id_le_maxId hr
  omega

theorem filter_id_eq_nil {t : Table} {i : Int} (h : i ∉ t.map Row.id) :
    t.filter (fun r => r.id = i) = [] := by
  refine List.filter_eq_nil_iff.mpr ?_
  intro r hr hid
  exact h (List.mem_map.mpr ⟨r, hr, of_decide_eq_true hid⟩)

theorem filter_id_singleton {t : Table} {r : Row} {i : Int}
    (hn : (t.map Row.id).Nodup) (hr : r ∈ t) (hi : r.id = i) :
    t.filter (fun x => x.id = i) = [r] := by
  induction t with
  | nil => cases hr
  | cons s ts ih =>
      rw [List.map_cons, List.nodup_cons] at hn
      rcases List.mem_cons.mp hr with h | h
      · subst h
        have hts : (ts.filter (fun x => x.id = i)) = [] := by
          refine filter_id_eq_nil ?_
          rw [← hi]; exact hn.1
        simp [List.filter_cons, hi, hts]
      · have hs : ¬ s.id = i := by
          intro e
          exact hn.1 (List.mem_map.mpr ⟨r, h, hi.trans e.symm⟩)
        rw [List.filter_cons, if_neg (by simp [hs])]
        exact ih hn.2 h

theorem filter_ne_of_not_mem {t : Table} {i : Int} (h : i ∉ t.map Row.id) :
    t.filter (fun r => r.id ≠ i) = t := by
  refine List.filter_eq_self.mpr ?_
  intro r hr
  refine decide_eq_true ?_
  intro e
  exact h (List.mem_map.mpr ⟨r, hr, e⟩)

theorem length_filter_ne_of_mem {t : Table} {i : Int}
    (hn : (t.map Row.id).Nodup) (hi : i ∈ t.map Row.id) :
    (t.filter (fun r => r.id ≠ i)).length + 1 = t.length := by
  induction t with
  | nil => cases hi
  | cons s ts ih =>
      rw [List.map_cons, List.nodup_cons] at hn
      rcases List.mem_cons.mp hi with h | h
      · have hts : ts.filter (fun r => r.id ≠ i) = ts := by
          refine filter_ne_of_not_mem ?_
          rw [h]; exact hn.1
        rw [List.filter_cons, if_neg (by simp [h.symm]), hts]
        rfl
      · have hs : s.id ≠ i := by
          intro e; exact hn.1 (by rw [e]; exact h)
        have hih := ih hn.2 h
        rw [List.filter_cons, if_pos (by simp [hs])]
        simp only [List.length_cons]
        omega

theorem not_mem_map_filter_ne {t : Table} {i : Int} :
    i ∉ (t.filter (fun r => r.id ≠ i)).map Row.id := by
  intro h
  rcases List.mem_map.mp h with ⟨r, hr, hid⟩
  have := of_decide_eq_true (List.mem_filter.mp hr).2
  exact this hid

theorem nodup_map_filter {t : Table} {p : Row → Bool}
    (hn : (t.map Row.id).Nodup) : ((t.filter p).map Row.id).Nodup :=
  hn.sublist ((List.filter_sublist t).map Row.id)

theorem nodup_append_fresh {t : Table} (hn : (t.map Row.id).Nodup)
    (d : Int) (a q : String) :
    ((t ++ [(⟨maxId t + 1, d, a, q⟩ : Row)]).map Row.id).Nodup := by
  rw [List.map_append]
  refine List.Nodup.append hn (List.nodup_singleton _) ?_
  intro x hx hx2
  rw [List.map_cons, List.map_nil, List.mem_singleton] at hx2
  subst hx2
  exact maxId_succ_not_mem hx

theorem editRow_id (i : Int) (s : String) (r : Row) :
    (if r.id = i then { r with quote := s } else r).id = r.id := by
  by_cases h : r.id = i <;> simp [h]

theorem editRow_date (i : Int) (s : String) (r : Row) :
    (if r.id = i then { r with quote := s } else r).date = r.date := by
  by_cases h : r.id = i <;> simp [h]

theorem editRow_author (i : Int) (s : String) (r : Row) :
    (if r.id = i then { r with quote := s } else r).author = r.author := by
  by_cases h : r.id = i <;> simp [h]

theorem map_id_edit (t : Table) (i : Int) (s : String) :
    (t.map (fun r => if r.id = i then { r with quote := s } else r)).map Row.id
      = t.map Row.id := by
  rw [List.map_map]
  exact List.map_congr_left (fun r _ => editRow_id i s r)

theorem map_date_edit (t : Table) (i : Int) (s : String) :
    (t.map (fun r => if r.id = i then { r with quote := s } else r)).map Row.date
      = t.map Row.date := by
  rw [List.map_map]
  exact List.map_congr_left (fun r _ => editRow_date i s r)

theorem map_author_edit (t : Table) (i : Int) (s : String) :
    (t.map (fun r => if r.id = i then { r with quote := s } else r)).map Row.author
      = t.map Row.author := by
  rw [List.map_map]
  exact List.map_congr_left (fun r _ => editRow_author i s r)

theorem map_edit_of_not_mem {t : Table} {i : Int} {s : String}
    (h : i ∉ t.map Row.id) :
    t.map (fun r => if r.id = i then { r with quote := s } else r) = t := by
  have he : ∀ r ∈ t, (if r.id = i then { r with quote := s } else r) = r := by
    intro r hr
    rw [if_neg]
    intro e
    exact h (List.mem_map.mpr ⟨r, hr, e⟩)
  rw [List.map_congr_left he, List.map_id']

theorem filter_map_edit (t : Table) (i : Int) (s : String) (j : Int) :
    (t.map (fun r => if r.id = i then { r with quote := s } else r)).filter
        (fun x => x.id = j)
      = (t.filter (fun x => x.id = j)).map
          (fun r => if r.id = i then { r with quote := s } else r) := by
  have hp : ((fun x : Row => decide (x.id = j)) ∘
        fun r : Row => if r.id = i then { r with quote := s } else r)
      = fun x : Row => decide (x.id = j) := by
    funext r
    simp only [Function.comp_apply]
    rw [editRow_id]
  rw [List.filter_map, hp]

theorem pairwise_ne_of_nodup {l : List Row} (h : (l.map Row.id).Nodup) :
    l.Pairwise (fun a b => a.id ≠ b.id) := by
  induction l with
  | nil => exact List.Pairwise.nil
  | cons s ts ih =>
      rw [List.map_cons, List.nodup_cons] at h
      refine List.pairwise_cons.mpr ⟨?_, ih h.2⟩
      intro b hb e
      exact h.1 (by rw [e]; exact List.mem_map.mpr ⟨b, hb, rfl⟩)

theorem sorted_strict_of_ge_nodup {l : List Row}
    (hs : l.Pairwise rowGe) (hn : (l.map Row.id).Nodup) :
    l.Pairwise (fun a b => b.id < a.id) :=
  (hs.and (pairwise_ne_of_nodup hn)).imp
    (fun h => lt_of_le_of_ne h.1 (Ne.symm h.2))

/-! ### Reduced forms of the mutating operations in error-free executions -/

theorem addQuote_noerr (db : QuoteDB) (now : Int) (a q : String) (l : Bool) :
    AddQuote db now a q false l =
      ((if l then (0, some .ioError) else (maxId db.table + 1, none)),
        ⟨db.table ++ [⟨maxId db.table + 1, now, a, q⟩], db.nQuotes + 1⟩) := by
  cases l <;> rfl

theorem delQuote_noerr (db : QuoteDB) (i : Int) :
    DelQuote db i false false =
      (if db.table.length - (db.table.filter (fun r => r.id ≠ i)).length = 1
       then ((true, none),
         ⟨db.table.filter (fun r => r.id ≠ i), db.nQuotes - 1⟩)
       else ((false, none),
         ⟨db.table.filter (fun r => r.id ≠ i), db.nQuotes⟩)) := rfl

theorem editQuote_noerr (db : QuoteDB) (i : Int) (s : String) :
    EditQuote db i s false false =
      ((decide ((db.table.filter (fun r => r.id = i)).length = 1), none),
        ⟨db.table.map (fun r => if r.id = i then { r with quote := s } else r),
          db.nQuotes⟩) := rfl

theorem addQuote_execErr (db : QuoteDB) (now : Int) (a q : String) (l : Bool) :
    AddQuote db now a q true l = ((0, some .ioError), db) := rfl

theorem delQuote_execErr (db : QuoteDB) (i : Int) (r : Bool) :
    DelQuote db i true r = ((false, some .ioError), db) := rfl

theorem editQuote_execErr (db : QuoteDB) (i : Int) (s : String) (r : Bool) :
    EditQuote db i s true r = ((false, some .ioError), db) := rfl

theorem edit_affected_iff {t : Table} {i : Int} (hn : (t.map Row.id).Nodup) :
    (t.filter (fun r => r.id = i)).length = 1 ↔ i ∈ t.map Row.id := by
  constructor
  · intro h
    by_contra hmem
    rw [filter_id_eq_nil hmem] at h
    simp at h
  · intro hmem
    obtain ⟨r, hr, hid⟩ := List.mem_map.mp hmem
    rw [filter_id_singleton hn hr hid]
    rfl

theorem getQuote_edit_present {db : QuoteDB} {i : Int} {s : String}
    (hn : (db.table.map Row.id).Nodup) (hmem : i ∈ db.table.map Row.id) :
    GetQuote (EditQuote db i s false false).2 i = .ok s := by
  obtain ⟨r, hr, hid⟩ := List.mem_map.mp hmem
  rw [editQuote_noerr]
  show GetQuote
    ⟨db.table.map (fun x => if x.id = i then { x with quote := s } else x),
      db.nQuotes⟩ i = .ok s
  unfold GetQuote
  rw [filter_map_edit, filter_id_singleton hn hr hid]
  simp only [List.map_cons, List.map_nil, if_pos hid]

theorem getQuote_edit_other (db : QuoteDB) (i : Int) (s : String) (j : Int)
    (hj : j ≠ i) :
    GetQuote (EditQuote db i s false false).2 j = GetQuote db j := by
  rw [editQuote_noerr]
  show GetQuote
    ⟨db.table.map (fun x => if x.id = i then { x with quote := s } else x),
      db.nQuotes⟩ j = GetQuote db j
  unfold GetQuote
  rw [filter_map_edit]
  cases hfj : db.table.filter (fun x => x.id = j) with
  | nil => rfl
  | cons r0 rest =>
      have hr0 : r0 ∈ db.table.filter (fun x => x.id = j) := by
        rw [hfj]; exact List.mem_cons_self r0 rest
      have hid0 : r0.id = j := of_decide_eq_true (List.mem_filter.mp hr0).2
      simp only [List.map_cons]
      rw [if_neg (by rw [hid0]; exact hj)]

theorem getDetails_edit (db : QuoteDB) (i : Int) (s : String) (j : Int) :
    GetDetails (EditQuote db i s false false).2 j = GetDetails db j := by
  rw [editQuote_noerr]
  show GetDetails
    ⟨db.table.map (fun x => if x.id = i then { x with quote := s } else x),
      db.nQuotes⟩ j = GetDetails db j
  unfold GetDetails
  rw [filter_map_edit]
  cases hfj : db.table.filter (fun x => x.id = j) with
  | nil => rfl
  | cons r0 rest =>
      simp only [List.map_cons]
      rw [editRow_date, editRow_author]

/-! ### Preservation of the store invariant -/

theorem inv_runOp {db : QuoteDB} {op : Op} (h : Inv db) (hs : safeOp op) :
    Inv (runOp db op) := by
  obtain ⟨hn, hc⟩ := h
  cases op with
  | add now a q e l =>
      cases e with
      | true => exact ⟨hn, hc⟩
      | false =>
          have hstate : runOp db (.add now a q false l) =
              ⟨db.table ++ [⟨maxId db.table + 1, now, a, q⟩],
                db.nQuotes + 1⟩ := by
            show (AddQuote db now a q false l).2 = _
            rw [addQuote_noerr]
          rw [hstate]
          refine ⟨nodup_append_fresh hn now a q, ?_⟩
          show db.nQuotes + 1 =
            ((db.table ++ [(⟨maxId db.table + 1, now, a, q⟩ : Row)]).length : Int)
          rw [List.length_append, List.length_singleton]
          push_cast
          omega
  | del i e r =>
      cases e with
      | true => exact ⟨hn, hc⟩
      | false =>
          simp only [safeOp] at hs
          have hr : r = false := by
            rcases hs with h | h
            · simp at h
            · exact h
          subst hr
          show Inv (DelQuote db i false false).2
          rw [delQuote_noerr]
          by_cases hmem : i ∈ db.table.map Row.id
          · have hlen := length_filter_ne_of_mem hn hmem
            rw [if_pos (by omega)]
            refine ⟨nodup_map_filter hn, ?_⟩
            show db.nQuotes - 1 =
              ((db.table.filter (fun r => r.id ≠ i)).length : Int)
            omega
          · rw [filter_ne_of_not_mem hmem,
              if_neg (show ¬(db.table.length - db.table.length = 1) by omega)]
            exact ⟨hn, hc⟩
  | edit i s e r =>
      cases e with
      | true => exact ⟨hn, hc⟩
      | false =>
          have hstate : runOp db (.edit i s false r) =
              ⟨db.table.map
                  (fun x => if x.id = i then { x with quote := s } else x),
                db.nQuotes⟩ := by
            cases r <;> rfl
          rw [hstate]
          constructor
          · rw [map_id_edit]; exact hn
          · show db.nQuotes =
              ((db.table.map
                (fun x => if x.id = i then { x with quote := s } else x)).length : Int)
            rw [List.length_map]
            exact hc
  | getQuoteOp i => exact ⟨hn, hc⟩
  | getDetailsOp i => exact ⟨hn, hc⟩
  | getAllOp => exact ⟨hn, hc⟩
  | randomQuoteOp k => exact ⟨hn, hc⟩
  | nQuotesOp => exact ⟨hn, hc⟩

theorem inv_foldl (ops : List Op) : ∀ db : QuoteDB, Inv db →
    (∀ op ∈ ops, safeOp op) → Inv (ops.foldl runOp db) := by
  induction ops with
  | nil => intro db hdb _; simpa using hdb
  | cons op rest ih =>
      intro db hdb hsafe
      rw [List.foldl_cons]
      exact ih _ (inv_runOp hdb (hsafe op (List.mem_cons_self op rest)))
        (fun o ho => hsafe o (List.mem_cons_of_mem op ho))

/-! ### The claims -/

/-- C1 (amended): for every sequence of store operations in which the store
is the sole writer, starting from a consistent state, after each operation
the cached count returned by `NQuotes` equals the number of rows in the
quotes table — provided that for every delete either the DELETE statement
itself failed or the driver's rows-affected retrieval succeeded (`safeOp`).
The bundled sqlite3 driver's `RowsAffected` never fails, so all its
executions satisfy this proviso. -/
theorem C1_cached_count_invariant (db : QuoteDB) (ops : List Op)
    (hdb : Inv db) (hsafe : ∀ op ∈ ops, safeOp op) (n : Nat) :
    Inv ((ops.take n).foldl runOp db) :=
  inv_foldl (ops.take n) db hdb
    (fun o ho => hsafe o (List.Sublist.mem ho (List.take_sublist n ops)))

/-- C1 witness: a concrete run (add then delete) from the empty store keeps
the invariant. -/
theorem C1_cached_count_invariant_witness :
    Inv (([Op.add 5 "Alice" "Hi" false false, Op.del 1 false false].take 2).foldl
      runOp ⟨[], 0⟩) :=
  C1_cached_count_invariant ⟨[], 0⟩
    [Op.add 5 "Alice" "Hi" false false, Op.del 1 false false]
    (by decide) (by decide) 2

/-- C1 counterexample: the claim as stated is false.  In the execution in
which the DELETE statement succeeds but `RowsAffected` then reports an
error, `DelQuote` returns without decrementing the cached count although
the row is gone: afterwards `NQuotes` is 1 while the table has 0 rows. -/
theorem C1_counterexample :
    Inv (⟨[⟨1, 0, "a", "q"⟩], 1⟩ : QuoteDB) ∧
    (runOp ⟨[⟨1, 0, "a", "q"⟩], 1⟩ (.del 1 false true)).table = [] ∧
    NQuotes (runOp ⟨[⟨1, 0, "a", "q"⟩], 1⟩ (.del 1 false true)) = 1 := by
  decide

/-- C2 counterexample: the claim is false.  `AddQuote("", "")` does not
fail: the empty Go strings bind as non-NULL TEXT, the NOT NULL constraints
are satisfied, and the row is inserted. -/
theorem C2_counterexample :
    (AddQuote ⟨[], 0⟩ 0 "" "" false false).1.2 = none ∧
    (AddQuote ⟨[], 0⟩ 0 "" "" false false).2.table = [⟨1, 0, "", ""⟩] := by
  decide

/-- C2 (amended): for every call `AddQuote(author, text)` in an error-free
execution — even with empty strings — the operation succeeds and inserts a
row, because the schema's NOT NULL constraints reject only NULL bindings
and Go strings always bind as non-NULL text; only a NULL binding (which
this API can never produce) violates the constraint. -/
theorem C2_empty_strings_accepted (db : QuoteDB) (now : Int)
    (author quote : String) :
    (AddQuote db now author quote false false).1.2 = none ∧
    (AddQuote db now author quote false false).2.table.length
      = db.table.length + 1 ∧
    execInsert db.table (.int now) .null (.text quote)
      = .error .notNullViolation := by
  refine ⟨?_, ?_, rfl⟩
  · rw [addQuote_noerr]
    rfl
  · rw [addQuote_noerr]
    show (db.table ++ [(⟨maxId db.table + 1, now, author, quote⟩ : Row)]).length
      = db.table.length + 1
    rw [List.length_append, List.length_singleton]

/-- C3: for every store state, if `AddQuote` succeeds (returns no error)
then `NQuotes` afterwards is exactly one greater than before, and
`GetQuote` at the returned id yields the added quote text. -/
theorem C3_add_success (db : QuoteDB) (now : Int) (a q : String)
    (eErr lErr : Bool)
    (hok : (AddQuote db now a q eErr lErr).1.2 = none) :
    NQuotes (AddQuote db now a q eErr lErr).2 = NQuotes db + 1 ∧
    GetQuote (AddQuote db now a q eErr lErr).2
      (AddQuote db now a q eErr lErr).1.1 = .ok q := by
  cases eErr with
  | true =>
      rw [addQuote_execErr] at hok
      exact absurd hok (by simp)
  | false =>
      cases lErr with
      | true =>
          rw [addQuote_noerr] at hok
          exact absurd hok (by simp)
      | false =>
          rw [addQuote_noerr]
          refine ⟨rfl, ?_⟩
          show GetQuote
            ⟨db.table ++ [(⟨maxId db.table + 1, now, a, q⟩ : Row)],
              db.nQuotes + 1⟩ (maxId db.table + 1) = .ok q
          unfold GetQuote
          rw [List.filter_append, filter_id_eq_nil maxId_succ_not_mem,
            List.nil_append, List.filter_cons, if_pos (by simp)]

/-- C3 witness: adding to the empty store. -/
theorem C3_add_success_witness :
    NQuotes (AddQuote ⟨[], 0⟩ 0 "Alice" "Hi" false false).2
      = NQuotes ⟨[], 0⟩ + 1 ∧
    GetQuote (AddQuote ⟨[], 0⟩ 0 "Alice" "Hi" false false).2
      (AddQuote ⟨[], 0⟩ 0 "Alice" "Hi" false false).1.1 = .ok "Hi" :=
  C3_add_success ⟨[], 0⟩ 0 "Alice" "Hi" false false rfl

/-- C4: for every store state with distinct primary keys, `DelQuote(id)` in
an error-free execution returns true exactly when a row with that id
exists; on true the cached count drops by one and `GetQuote(id)` now fails
with not-found; on an absent id it returns false and the state is
unchanged. -/
theorem C4_del_spec (db : QuoteDB) (i : Int)
    (hn : (db.table.map Row.id).Nodup) :
    ((DelQuote db i false false).1.1 = true ↔ i ∈ db.table.map Row.id) ∧
    (DelQuote db i false false).1.2 = none ∧
    ((DelQuote db i false false).1.1 = true →
      NQuotes (DelQuote db i false false).2 = NQuotes db - 1 ∧
      GetQuote (DelQuote db i false false).2 i = .error .noRows) ∧
    (i ∉ db.table.map Row.id →
      (DelQuote db i false false).1.1 = false ∧
      (DelQuote db i false false).2 = db) := by
  rw [delQuote_noerr]
  by_cases hmem : i ∈ db.table.map Row.id
  · have hlen := length_filter_ne_of_mem hn hmem
    rw [if_pos (by omega)]
    refine ⟨by simp [hmem], rfl, ?_, fun h => absurd hmem h⟩
    intro _
    refine ⟨rfl, ?_⟩
    show GetQuote
      ⟨db.table.filter (fun r => r.id ≠ i), db.nQuotes - 1⟩ i
      = .error .noRows
    unfold GetQuote
    rw [filter_id_eq_nil not_mem_map_filter_ne]
  · rw [filter_ne_of_not_mem hmem,
      if_neg (show ¬(db.table.length - db.table.length = 1) by omega)]
    exact ⟨by simp [hmem], rfl, by simp, fun _ => ⟨rfl, rfl⟩⟩

/-- C4 witness: deleting the only row of a one-row store. -/
theorem C4_del_spec_witness :
    NQuotes (DelQuote ⟨[⟨1, 0, "a", "q"⟩], 1⟩ 1 false false).2
      = NQuotes ⟨[⟨1, 0, "a", "q"⟩], 1⟩ - 1 ∧
    GetQuote (DelQuote ⟨[⟨1, 0, "a", "q"⟩], 1⟩ 1 false false).2 1
      = .error .noRows :=
  (C4_del_spec ⟨[⟨1, 0, "a", "q"⟩], 1⟩ 1 (by decide)).2.2.1 (by decide)

/-- C5: for every store state with distinct primary keys, `EditQuote(id,
newText)` in an error-free execution returns true and makes `GetQuote(id)`
return the new text when the id exists, returns false changing nothing when
it is absent, and in either case mutates only the quote field of the
matching row: ids, dates and authors of all rows, all rows with other ids,
the results of `GetQuote` at other ids and of `GetDetails` everywhere, and
the cached count are unchanged. -/
theorem C5_edit_spec (db : QuoteDB) (i : Int) (s : String)
    (hn : (db.table.map Row.id).Nodup) :
    ((EditQuote db i s false false).1.1 = true ↔ i ∈ db.table.map Row.id) ∧
    (EditQuote db i s false false).1.2 = none ∧
    (i ∈ db.table.map Row.id →
      GetQuote (EditQuote db i s false false).2 i = .ok s) ∧
    (i ∉ db.table.map Row.id → (EditQuote db i s false false).2 = db) ∧
    (EditQuote db i s false false).2.table.map Row.id
      = db.table.map Row.id ∧
    (EditQuote db i s false false).2.table.map Row.date
      = db.table.map Row.date ∧
    (EditQuote db i s false false).2.table.map Row.author
      = db.table.map Row.author ∧
    NQuotes (EditQuote db i s false false).2 = NQuotes db ∧
    (∀ r ∈ db.table, r.id ≠ i → r ∈ (EditQuote db i s false false).2.table) ∧
    (∀ j, j ≠ i →
      GetQuote (EditQuote db i s false false).2 j = GetQuote db j) ∧
    (∀ j, GetDetails (EditQuote db i s false false).2 j = GetDetails db j) := by
  refine ⟨?_, ?_, fun hmem => getQuote_edit_present hn hmem, ?_, ?_, ?_, ?_,
    rfl, ?_, fun j hj => getQuote_edit_other db i s j hj,
    fun j => getDetails_edit db i s j⟩
  · rw [editQuote_noerr]
    show decide ((db.table.filter (fun r => r.id = i)).length = 1) = true
      ↔ i ∈ db.table.map Row.id
    rw [decide_eq_true_eq]
    exact edit_affected_iff hn
  · rw [editQuote_noerr]
  · intro hmem
    rw [editQuote_noerr]
    show (⟨db.table.map
        (fun x => if x.id = i then { x with quote := s } else x),
      db.nQuotes⟩ : QuoteDB) = db
    rw [map_edit_of_not_mem hmem]
  · exact map_id_edit db.table i s
  · exact map_date_edit db.table i s
  · exact map_author_edit db.table i s
  · intro r hr hne
    rw [editQuote_noerr]
    show r ∈ db.table.map
      (fun x => if x.id = i then { x with quote := s } else x)
    have : (if r.id = i then { r with quote := s } else r) = r := if_neg hne
    exact this ▸ List.mem_map_of_mem _ hr

/-- C5 witness: editing the quote of the only row. -/
theorem C5_edit_spec_witness :
    GetQuote (EditQuote ⟨[⟨1, 0, "a", "q"⟩], 1⟩ 1 "q2" false false).2 1
      = .ok "q2" ∧
    NQuotes (EditQuote ⟨[⟨1, 0, "a", "q"⟩], 1⟩ 1 "q2" false false).2
      = NQuotes ⟨[⟨1, 0, "a", "q"⟩], 1⟩ :=
  ⟨(C5_edit_spec ⟨[⟨1, 0, "a", "q"⟩], 1⟩ 1 "q2" (by decide)).2.2.1 (by decide),
   (C5_edit_spec ⟨[⟨1, 0, "a", "q"⟩], 1⟩ 1 "q2" (by decide)).2.2.2.2.2.2.2.1⟩

/-- C6: for every consistent store state, `GetAll` succeeds and returns
exactly the stored rows ordered by strictly descending id, with length
equal to the cached count; on an empty table it returns the empty list
rather than a failure. -/
theorem C6_getAll_spec (db : QuoteDB)
    (hn : (db.table.map Row.id).Nodup)
    (hc : NQuotes db = (db.table.length : Int)) :
    ∃ l, GetAll db = .ok l ∧
      (l.length : Int) = NQuotes db ∧
      (∀ r : Row, r ∈ l ↔ r ∈ db.table) ∧
      l.Pairwise (fun a b => b.id < a.id) ∧
      (db.table = [] → l = []) := by
  refine ⟨db.table.insertionSort rowGe, rfl, ?_, ?_, ?_, ?_⟩
  · rw [List.length_insertionSort]
    exact hc.symm
  · intro r
    exact List.mem_insertionSort rowGe
  · refine sorted_strict_of_ge_nodup (List.sorted_insertionSort rowGe db.table) ?_
    exact ((List.perm_insertionSort rowGe db.table).map Row.id).nodup_iff.mpr hn
  · intro h
    rw [h]
    rfl

/-- C6 witness: a two-row store. -/
theorem C6_getAll_spec_witness :
    ∃ l, GetAll ⟨[⟨1, 0, "a", "q"⟩, ⟨2, 5, "b", "r"⟩], 2⟩ = .ok l ∧
      (l.length : Int) = NQuotes ⟨[⟨1, 0, "a", "q"⟩, ⟨2, 5, "b", "r"⟩], 2⟩ ∧
      (∀ r : Row, r ∈ l ↔ r ∈ ([⟨1, 0, "a", "q"⟩, ⟨2, 5, "b", "r"⟩] : Table)) ∧
      l.Pairwise (fun a b => b.id < a.id) ∧
      (([⟨1, 0, "a", "q"⟩, ⟨2, 5, "b", "r"⟩] : Table) = [] → l = []) :=
  C6_getAll_spec ⟨[⟨1, 0, "a", "q"⟩, ⟨2, 5, "b", "r"⟩], 2⟩ (by decide) (by decide)

/-- C7: `RandomQuote` on an empty table fails with the no-rows error, and
on a non-empty table returns the id and quote of some row present in
`GetAll`'s result. -/
theorem C7_random_spec (db : QuoteDB) (k : Nat) :
    (db.table = [] → RandomQuote db k = .error .noRows) ∧
    (db.table ≠ [] → ∃ r : Row, r ∈ db.table ∧
      RandomQuote db k = .ok (r.id, r.quote) ∧
      ∃ l, GetAll db = .ok l ∧ r ∈ l) := by
  constructor
  · intro h
    unfold RandomQuote
    rw [h]
    rfl
  · intro h
    have hlen : 0 < db.table.length := List.length_pos.mpr h
    have hlt : k % db.table.length < db.table.length := Nat.mod_lt _ hlen
    refine ⟨db.table[k % db.table.length], List.getElem_mem hlt, ?_, ?_⟩
    · unfold RandomQuote
      rw [List.getElem?_eq_getElem hlt]
    · exact ⟨db.table.insertionSort rowGe, rfl,
        (List.mem_insertionSort rowGe).mpr (List.getElem_mem hlt)⟩

/-- C7 witness: the empty store errors; a one-row store returns its row. -/
theorem C7_random_spec_witness :
    RandomQuote ⟨[], 0⟩ 3 = .error .noRows ∧
    ∃ r : Row, r ∈ ([⟨1, 0, "a", "q"⟩] : Table) ∧
      RandomQuote ⟨[⟨1, 0, "a", "q"⟩], 1⟩ 5 = .ok (r.id, r.quote) ∧
      ∃ l, GetAll ⟨[⟨1, 0, "a", "q"⟩], 1⟩ = .ok l ∧ r ∈ l :=
  ⟨(C7_random_spec ⟨[], 0⟩ 3).1 rfl,
   (C7_random_spec ⟨[⟨1, 0, "a", "q"⟩], 1⟩ 5).2 (by decide)⟩

/-- C8: for every id absent from the store, `GetQuote` and `GetDetails`
fail with the not-found error, whereas `EditQuote` and `DelQuote` (in
error-free executions) report false with no error and leave the store
unchanged. -/
theorem C8_absent_id (db : QuoteDB) (i : Int) (s : String)
    (habs : i ∉ db.table.map Row.id) :
    GetQuote db i = .error .noRows ∧
    GetDetails db i = .error .noRows ∧
    EditQuote db i s false false = ((false, none), db) ∧
    DelQuote db i false false = ((false, none), db) := by
  refine ⟨?_, ?_, ?_, ?_⟩
  · unfold GetQuote
    rw [filter_id_eq_nil habs]
  · unfold GetDetails
    rw [filter_id_eq_nil habs]
  · rw [editQuote_noerr, filter_id_eq_nil habs, map_edit_of_not_mem habs]
    rfl
  · rw [delQuote_noerr, filter_ne_of_not_mem habs,
      if_neg (show ¬(db.table.length - db.table.length = 1) by omega)]

/-- C8 witness: id 2 is absent from a store holding only id 1. -/
theorem C8_absent_id_witness :
    GetQuote ⟨[⟨1, 0, "a", "q"⟩], 1⟩ 2 = .error .noRows ∧
    GetDetails ⟨[⟨1, 0, "a", "q"⟩], 1⟩ 2 = .error .noRows ∧
    EditQuote ⟨[⟨1, 0, "a", "q"⟩], 1⟩ 2 "x" false false
      = ((false, none), ⟨[⟨1, 0, "a", "q"⟩], 1⟩) ∧
    DelQuote ⟨[⟨1, 0, "a", "q"⟩], 1⟩ 2 false false
      = ((false, none), ⟨[⟨1, 0, "a", "q"⟩], 1⟩) :=
  C8_absent_id ⟨[⟨1, 0, "a", "q"⟩], 1⟩ 2 "x" (by decide)

/-- C9: if opening the backing file, either schema statement, or the
initial count load fails, `OpenDB` returns an error and no store, and any
handle that had been opened is closed again before returning. -/
theorem C9_open_failure (ft : Table) (oe ce ie cte : Bool)
    (hfail : oe = true ∨ ce = true ∨ ie = true ∨ cte = true) :
    (OpenDB ft oe ce ie cte).store = none ∧
    (OpenDB ft oe ce ie cte).err ≠ none ∧
    ((OpenDB ft oe ce ie cte).handleOpened = true →
      (OpenDB ft oe ce ie cte).handleClosed = true) := by
  cases oe <;> cases ce <;> cases ie <;> cases cte <;> simp_all [OpenDB]

/-- C9 witness: a failing create-table statement. -/
theorem C9_open_failure_witness :
    (OpenDB [] false true false false).store = none ∧
    (OpenDB [] false true false false).err ≠ none ∧
    ((OpenDB [] false true false false).handleOpened = true →
      (OpenDB [] false true false false).handleClosed = true) :=
  C9_open_failure [] false true false false (Or.inr (Or.inl rfl))

/-- C10: in the execution in which the insert succeeds but `LastInsertId`
fails, `AddQuote` returns id 0 together with the error, yet the row was
inserted and the cached count incremented — a failed-looking add leaves the
store with one more row and count. -/
theorem C10_add_error_after_insert (db : QuoteDB) (now : Int) (a q : String) :
    (AddQuote db now a q false true).1.1 = 0 ∧
    (AddQuote db now a q false true).1.2 = some .ioError ∧
    (AddQuote db now a q false true).2.table
      = db.table ++ [⟨maxId db.table + 1, now, a, q⟩] ∧
    NQuotes (AddQuote db now a q false true).2 = NQuotes db + 1 := by
  rw [addQuote_noerr]
  exact ⟨rfl, rfl, rfl, rfl⟩

end Quotes
